import Mathlib

/-!
Verification of a nom-based proxy-rule DSL parser and a markdown segmenter.
The Rust source (lib.rs and markdown_values.rs) is shallowly embedded:
inputs are lists of characters, every nom parser becomes a function from an
input to a three-valued outcome (success with remaining input, recoverable
nom error, or process abort), and each combinator mirrors the nom semantics
used by the source, including the zero-consumption check inside repetition
combinators and the aborts introduced by unwrap and expect calls.
-/

namespace WP

/-- Outcome of running a parser: success with a value and the remaining
input, a recoverable nom error, or a process abort (a Rust panic raised by
an unwrap or expect call in the source). -/
inductive PRes (α : Type) where
  | ok : α → List Char → PRes α
  | err : PRes α
  | panic : PRes α
  deriving DecidableEq

/-- A parser consumes a prefix of a character list. -/
def Parser (α : Type) : Type := List Char → PRes α

/-- Holds when a parser run succeeded and consumed its whole input. -/
def PRes.consumedAll : PRes α → Bool
  | .ok _ r => r.isEmpty
  | _ => false

/-- Unicode white-space test matching the Rust char is_whitespace property. -/
def isWhitespaceR (c : Char) : Bool :=
  c == ' ' || c == '\t' || c == '\n' || c == '\r' ||
  c.toNat == 0x0B || c.toNat == 0x0C || c.toNat == 0x85 || c.toNat == 0xA0 ||
  c.toNat == 0x1680 || (0x2000 ≤ c.toNat && c.toNat ≤ 0x200A) ||
  c.toNat == 0x2028 || c.toNat == 0x2029 || c.toNat == 0x202F ||
  c.toNat == 0x205F || c.toNat == 0x3000

/-- Alphanumeric test used for schemes and rule names (ASCII fragment of the
Rust char is_alphanumeric predicate; all inputs considered here are ASCII). -/
def isAlnumR (c : Char) : Bool := c.isAlphanum

/-- Model of the nom u8 is_space test applied in the source to a char cast
to u8: the cast keeps only the low byte of the code point. -/
def isSpaceU8 (c : Char) : Bool := c.toNat % 256 == 32 || c.toNat % 256 == 9

/-- Backtick character (code point 96). -/
def bq : Char := Char.ofNat 96

/-- nom tag: match a literal character sequence. -/
def tagP (t : List Char) : Parser (List Char) := fun i =>
  if t.isPrefixOf i then PRes.ok t (i.drop t.length) else PRes.err

/-- nom char: match one given character. -/
def charP (c : Char) : Parser Char := fun i =>
  match i with
  | [] => PRes.err
  | x :: rest => if x == c then PRes.ok x rest else PRes.err

/-- nom take_while: longest (possibly empty) run satisfying the predicate. -/
def take_while (f : Char → Bool) : Parser (List Char) := fun i =>
  PRes.ok (i.takeWhile f) (i.dropWhile f)

/-- nom take_while1: longest run satisfying the predicate, at least one. -/
def take_while1 (f : Char → Bool) : Parser (List Char) := fun i =>
  if (i.takeWhile f).isEmpty then PRes.err else PRes.ok (i.takeWhile f) (i.dropWhile f)

/-- nom take_till1: longest run failing the predicate, at least one. -/
def take_till1 (f : Char → Bool) : Parser (List Char) :=
  take_while1 (fun c => !(f c))

/-- Index of the first occurrence of a substring, if any. -/
def findSubIdx (t : List Char) : List Char → Option Nat
  | [] => if t.isEmpty then some 0 else none
  | c :: rest =>
    if t.isPrefixOf (c :: rest) then some 0
    else
      match findSubIdx t rest with
      | some n => some (n + 1)
      | none => none

/-- nom take_until: consume up to the first occurrence of the needle and
fail when the needle never occurs. -/
def take_until (t : List Char) : Parser (List Char) := fun i =>
  match findSubIdx t i with
  | some n => PRes.ok (i.take n) (i.drop n)
  | none => PRes.err

/-- nom none_of: one character outside the given set. -/
def noneOf (s : List Char) : Parser Char := fun i =>
  match i with
  | [] => PRes.err
  | c :: rest => if s.contains c then PRes.err else PRes.ok c rest

/-- nom take applied to count one: exactly one character. -/
def take1 : Parser (List Char) := fun i =>
  match i with
  | [] => PRes.err
  | c :: rest => PRes.ok [c] rest

/-- nom map on the parsed value. -/
def pmap (p : Parser α) (f : α → β) : Parser β := fun i =>
  match p i with
  | .ok x r => PRes.ok (f x) r
  | .err => PRes.err
  | .panic => PRes.panic

/-- Sequencing of parsers, threading the remaining input. -/
def pbind (p : Parser α) (f : α → Parser β) : Parser β := fun i =>
  match p i with
  | .ok x r => f x r
  | .err => PRes.err
  | .panic => PRes.panic

/-- nom opt: turn a recoverable error into a none result. -/
def popt (p : Parser α) : Parser (Option α) := fun i =>
  match p i with
  | .ok x r => PRes.ok (some x) r
  | .err => PRes.ok none i
  | .panic => PRes.panic

/-- nom preceded. -/
def preceded (p : Parser α) (q : Parser β) : Parser β := pbind p (fun _ => q)

/-- nom terminated. -/
def terminated (p : Parser α) (q : Parser β) : Parser α :=
  pbind p (fun x => pmap q (fun _ => x))

/-- nom delimited. -/
def delimited (a : Parser α) (p : Parser β) (b : Parser γ) : Parser β :=
  preceded a (terminated p b)

/-- nom alt over two branches: recoverable errors fall through. -/
def alt2 (p q : Parser α) : Parser α := fun i =>
  match p i with
  | .err => q i
  | .ok x r => PRes.ok x r
  | .panic => PRes.panic

/-- nom alt over three branches. -/
def alt3 (p q r : Parser α) : Parser α := alt2 p (alt2 q r)

/-- nom alt over four branches. -/
def alt4 (p q r s : Parser α) : Parser α := alt2 p (alt3 q r s)

/-- nom not: succeed without consuming exactly when the inner parser fails. -/
def notP (p : Parser α) : Parser Unit := fun i =>
  match p i with
  | .ok _ _ => PRes.err
  | .err => PRes.ok () i
  | .panic => PRes.panic

/-- nom all_consuming: require the inner parser to eat the whole input. -/
def all_consuming (p : Parser α) : Parser α := fun i =>
  match p i with
  | .ok x r => if r.isEmpty then PRes.ok x r else PRes.err
  | .err => PRes.err
  | .panic => PRes.panic

/-- Fuelled loop of the nom many0 combinator, including the nom check that
a successful inner parse must consume input (otherwise the whole repetition
fails). The fuel is always instantiated above the input length, which the
consumption check makes sufficient. -/
def many0F (p : Parser α) (fuel : Nat) (i : List Char) : PRes (List α) :=
  match fuel with
  | 0 => PRes.err
  | fuel' + 1 =>
    match p i with
    | .err => PRes.ok [] i
    | .panic => PRes.panic
    | .ok x i1 =>
      if i1.length < i.length then
        match many0F p fuel' i1 with
        | .ok xs r => PRes.ok (x :: xs) r
        | .err => PRes.err
        | .panic => PRes.panic
      else PRes.err

/-- nom many0. -/
def many0 (p : Parser α) : Parser (List α) := fun i => many0F p (i.length + 1) i

/-- nom many1: a first mandatory element followed by the many0 loop. -/
def many1 (p : Parser α) : Parser (List α) := fun i =>
  match p i with
  | .err => PRes.err
  | .panic => PRes.panic
  | .ok x i1 =>
    match many0F p (i1.length + 1) i1 with
    | .ok xs r => PRes.ok (x :: xs) r
    | .err => PRes.err
    | .panic => PRes.panic

/-- Fuelled loop of the nom separated_list0 combinator: the separator must
consume input, and a failing element after a separator ends the list at the
input position before that separator. -/
def sepLoopF (sep : Parser β) (p : Parser α) (fuel : Nat) (i : List Char) : PRes (List α) :=
  match fuel with
  | 0 => PRes.err
  | fuel' + 1 =>
    match sep i with
    | .err => PRes.ok [] i
    | .panic => PRes.panic
    | .ok _ i1 =>
      if i1.length < i.length then
        match p i1 with
        | .err => PRes.ok [] i
        | .panic => PRes.panic
        | .ok x i2 =>
          match sepLoopF sep p fuel' i2 with
          | .ok xs r => PRes.ok (x :: xs) r
          | .err => PRes.err
          | .panic => PRes.panic
      else PRes.err

/-- nom separated_list0. -/
def separated_list0 (sep : Parser β) (p : Parser α) : Parser (List α) := fun i =>
  match p i with
  | .err => PRes.ok [] i
  | .panic => PRes.panic
  | .ok x i1 =>
    match sepLoopF sep p (i1.length + 1) i1 with
    | .ok xs r => PRes.ok (x :: xs) r
    | .err => PRes.err
    | .panic => PRes.panic

/-- nom multispace0: spaces, tabs, carriage returns and line feeds. -/
def multispace0 : Parser (List Char) :=
  take_while (fun c => c == ' ' || c == '\t' || c == '\r' || c == '\n')

/-- The Uri record of lib.rs. -/
structure Uri where
  scheme : List Char
  host : List Char
  path : List Char
  query : List Char
  deriving DecidableEq

/-- The TemplatePart enum of lib.rs. -/
inductive TemplatePart where
  | RawString : List Char → TemplatePart
  | Value : List Char → TemplatePart
  deriving DecidableEq

/-- The TemplateString record of lib.rs. -/
structure TemplateString where
  parts : List TemplatePart
  deriving DecidableEq

/-- The OpValue enum of lib.rs. -/
inductive OpValue where
  | Inline : List Char → OpValue
  | Value : List Char → OpValue
  | Raw : List Char → OpValue
  | TemplateString : TemplateString → OpValue
  deriving DecidableEq

/-- The Rule record of lib.rs. -/
structure Rule where
  name : List Char
  value : OpValue
  deriving DecidableEq

/-- The ProxyRule record of lib.rs. -/
structure ProxyRule where
  source : Uri
  target : Uri
  rules : List Rule
  deriving DecidableEq

/-- lib.rs whitespace: one or more white-space characters. -/
def whitespace : Parser (List Char) := take_while1 isWhitespaceR

/-- lib.rs not_space: one or more non-white-space characters. -/
def not_space : Parser (List Char) := take_while1 (fun c => !(isWhitespaceR c))

/-- lib.rs parse_escaped: a backslash followed by one non-backslash
character, emitted as a one-character raw part. -/
def parse_escaped : Parser TemplatePart :=
  pbind (tagP ("\\".toList)) (fun _ =>
    pmap (noneOf ['\\']) (fun c => TemplatePart.RawString [c]))

/-- One iteration of the alternation inside parse_template_string of
lib.rs: an escape, an interpolation, or a literal run up to the next
interpolation opener. -/
def tplPart : Parser TemplatePart :=
  alt3 parse_escaped
    (pmap (preceded (tagP ("$\x7b".toList))
        (terminated (take_until ("\x7d".toList)) (tagP ("\x7d".toList))))
      TemplatePart.Value)
    (pmap (take_until ("$\x7b".toList)) TemplatePart.RawString)

/-- lib.rs parse_template_string: optionally consume a leading opening
parenthesis, in which case the source strips a trailing closing parenthesis
with an expect call that aborts the process when it is missing; then run the
part alternation under many0. -/
def parse_template_string : Parser TemplateString := fun input =>
  match popt (charP '(') input with
  | .panic => PRes.panic
  | .err => PRes.err
  | .ok bracket input1 =>
    match (match bracket with
           | some _ => if input1.getLast? == some ')' then some input1.dropLast else none
           | none => some input1) with
    | none => PRes.panic
    | some input2 =>
      match many0 tplPart input2 with
      | .ok parts rest => PRes.ok ⟨parts⟩ rest
      | .err => PRes.err
      | .panic => PRes.panic

/-- lib.rs parse_uri: optional scheme, optional host, greedy path up to a
question mark, greedy query up to white space. -/
def parse_uri : Parser Uri :=
  pbind (popt (terminated (take_while1 isAlnumR) (tagP ("://".toList)))) (fun scheme =>
  pbind (popt (take_while1 (fun c => !(c == '/')))) (fun host =>
  pbind (take_while (fun c => !(c == '?'))) (fun path =>
  pmap (take_while (fun c => !(isWhitespaceR c))) (fun query =>
    ⟨scheme.getD [], host.getD [], path, query⟩))))

/-- Backtick branch of parse_rule_value in lib.rs: the interior may not
contain spaces, tabs or backticks, and the template parse result is
unwrapped, so a failed template parse aborts the process. -/
def btBranch : Parser OpValue := fun i =>
  match delimited (charP bq) (take_while (fun c => !(c == ' ' || c == '\t' || c == bq))) (charP bq) i with
  | .err => PRes.err
  | .panic => PRes.panic
  | .ok s rest =>
    match parse_template_string s with
    | .ok ts _ => PRes.ok (OpValue.TemplateString ts) rest
    | _ => PRes.panic

/-- lib.rs parse_rule_value: ordered alternation over the backtick,
parenthesis and brace delimited forms with a bare-token fallback. -/
def parse_rule_value : Parser OpValue :=
  alt4 btBranch
    (pmap (delimited (charP '(') (take_while (fun c => !(c == ' ' || c == '\t' || c == ')'))) (charP ')'))
      OpValue.Inline)
    (pmap (delimited (charP '\x7b') (take_while (fun c => !(c == ' ' || c == '\t' || c == '\x7d'))) (charP '\x7d'))
      OpValue.Value)
    (pmap (take_while (fun c => !(isSpaceU8 c))) OpValue.Raw)

/-- lib.rs parse_rule: an alphanumeric name, a literal separator, then the
whole non-white-space value token handed to parse_rule_value; the question
mark operator in the source propagates a value-parse error. -/
def parse_rule : Parser Rule := fun i =>
  match terminated (take_while1 isAlnumR) (tagP ("://".toList)) i with
  | .err => PRes.err
  | .panic => PRes.panic
  | .ok name i1 =>
    match take_while (fun c => !(isWhitespaceR c)) i1 with
    | .ok s i2 =>
      match parse_rule_value s with
      | .err => PRes.err
      | .panic => PRes.panic
      | .ok v _ => PRes.ok ⟨name, v⟩ i2
    | .err => PRes.err
    | .panic => PRes.panic

/-- lib.rs get_part: skip leading spacing, then one non-white-space token. -/
def get_part : Parser (List Char) := preceded multispace0 (take_till1 isWhitespaceR)

/-- The mapped element parser inside get_rules of lib.rs: one token taken
with not_space whose rule parse is unwrapped, so a token that is not a rule
aborts the process. -/
def rule_token : Parser Rule := fun i =>
  match not_space i with
  | .err => PRes.err
  | .panic => PRes.panic
  | .ok s rest =>
    match parse_rule s with
    | .ok r _ => PRes.ok r rest
    | _ => PRes.panic

/-- lib.rs get_rules: mandatory leading white space, then rule tokens
separated by white space. -/
def get_rules : Parser (List Rule) :=
  preceded whitespace (separated_list0 whitespace rule_token)

/-- lib.rs parse_proxy_rule: source and target tokens parsed by parse_uri
under all_consuming, then either an empty tail or get_rules whose result is
unwrapped, so a get_rules failure aborts the process. -/
def parse_proxy_rule : Parser ProxyRule := fun input =>
  match get_part input with
  | .err => PRes.err
  | .panic => PRes.panic
  | .ok tok1 rest1 =>
    match all_consuming parse_uri tok1 with
    | .err => PRes.err
    | .panic => PRes.panic
    | .ok source _ =>
      match get_part rest1 with
      | .err => PRes.err
      | .panic => PRes.panic
      | .ok tok2 rest2 =>
        match all_consuming parse_uri tok2 with
        | .err => PRes.err
        | .panic => PRes.panic
        | .ok target _ =>
          if rest2.all isWhitespaceR then PRes.ok ⟨source, target, []⟩ rest2
          else
            match get_rules rest2 with
            | .ok rules r => PRes.ok ⟨source, target, rules⟩ r
            | _ => PRes.panic

/-- The MarkdownInline enum of markdown_values.rs. -/
inductive MarkdownInline where
  | Plaintext : List Char → MarkdownInline
  deriving DecidableEq

/-- The Markdown enum of markdown_values.rs. -/
inductive Markdown where
  | Line : List MarkdownInline → Markdown
  | Codeblock : List Char → List Char → Markdown
  deriving DecidableEq

/-- Element of the repetition inside parse_plaintext of markdown_values.rs:
one character that does not begin a fence or a newline. -/
def pt_elem : Parser (List Char) :=
  preceded (notP (alt2 (tagP ("```".toList)) (tagP ("\n".toList)))) take1

/-- markdown_values.rs parse_plaintext. -/
def parse_plaintext : Parser (List Char) :=
  pmap (many1 pt_elem) (fun v => v.flatten)

/-- markdown_values.rs parse_markdown_inline (an alternation with a single
plain-text branch). -/
def parse_markdown_inline : Parser MarkdownInline :=
  pmap parse_plaintext MarkdownInline.Plaintext

/-- markdown_values.rs parse_markdown_text: inline elements up to and
including a newline terminator. -/
def parse_markdown_text : Parser (List MarkdownInline) :=
  terminated (many0 parse_markdown_inline) (tagP ("\n".toList))

/-- markdown_values.rs parse_code_block_lang. -/
def parse_code_block_lang : Parser (List Char) :=
  alt2 (preceded (tagP ("```".toList)) parse_plaintext)
    (pmap (tagP ("```".toList)) (fun _ => "__UNKNOWN__".toList))

/-- markdown_values.rs parse_code_block_body: a newline, then characters
drawn from outside the backtick set (nom is_not treats its argument as a
character set), then a closing fence. -/
def parse_code_block_body : Parser (List Char) :=
  delimited (tagP ("\n".toList)) (take_while1 (fun c => !(c == bq))) (tagP ("```".toList))

/-- markdown_values.rs parse_code_block. -/
def parse_code_block : Parser (List Char × List Char) :=
  pbind parse_code_block_lang (fun lang =>
    pmap parse_code_block_body (fun body => (lang, body)))

/-- One alternation step of parse_markdown in markdown_values.rs. -/
def mdElem : Parser Markdown :=
  alt2 (pmap parse_code_block (fun e => Markdown.Codeblock e.1 e.2))
    (pmap parse_markdown_text Markdown.Line)

/-- markdown_values.rs parse_markdown. -/
def parse_markdown : Parser (List Markdown) := many1 mdElem

/-- markdown_values.rs into_parts: lines are joined into one text blob
(reading only the first inline of a non-empty line), code blocks are
collected as pairs in encountered order. -/
def into_parts : List Markdown → List Char × List (List Char × List Char)
  | [] => ([], [])
  | Markdown.Line [] :: rest =>
    let r := into_parts rest
    ('\n' :: r.1, r.2)
  | Markdown.Line (MarkdownInline.Plaintext s :: _) :: rest =>
    let r := into_parts rest
    (s ++ '\n' :: r.1, r.2)
  | Markdown.Codeblock n v :: rest =>
    let r := into_parts rest
    (r.1, (n, v) :: r.2)

/-- Concatenation of the payloads of the raw parts of a template, used to
state the round-trip property of the specification. -/
def rawConcat : List TemplatePart → List Char
  | [] => []
  | TemplatePart.RawString s :: rest => s ++ rawConcat rest
  | TemplatePart.Value _ :: rest => rawConcat rest

/-- Substring test on character lists. -/
def listContains (hay needle : List Char) : Bool :=
  match hay with
  | [] => needle.isEmpty
  | _ :: rest => needle.isPrefixOf hay || listContains rest needle

/-- The language and body pair of a code-block element, none for a line. -/
def mdCodePair : Markdown → Option (List Char × List Char)
  | Markdown.Codeblock n v => some (n, v)
  | Markdown.Line _ => none

/-- Recognizer for code-block elements. -/
def isCodeblock : Markdown → Bool
  | Markdown.Codeblock _ _ => true
  | Markdown.Line _ => false

theorem wp_mem_of_drop {c : Char} : ∀ {n : Nat} {l : List Char}, c ∈ l.drop n → c ∈ l := by
  intro n
  induction n with
  | zero => intro l hc; simpa using hc
  | succ m ih =>
    intro l hc
    cases l with
    | nil => simp at hc
    | cons a t =>
      simp only [List.drop_succ_cons] at hc
      exact List.mem_cons_of_mem a (ih hc)

theorem wp_mem_of_dropWhile {p : Char → Bool} {c : Char} :
    ∀ {l : List Char}, c ∈ l.dropWhile p → c ∈ l := by
  intro l
  induction l with
  | nil => intro hc; simp [List.dropWhile] at hc
  | cons a t ih =>
    intro hc
    cases hpa : p a with
    | true =>
      rw [List.dropWhile_cons, if_pos (by simp [hpa])] at hc
      exact List.mem_cons_of_mem a (ih hc)
    | false =>
      rw [List.dropWhile_cons, if_neg (by simp [hpa])] at hc
      exact hc

theorem wp_dropWhile_nil {p : Char → Bool} :
    ∀ {l : List Char}, (∀ c ∈ l, p c = true) → l.dropWhile p = [] := by
  intro l
  induction l with
  | nil => intro; rfl
  | cons a t ih =>
    intro h
    rw [List.dropWhile_cons, if_pos (by simp [h a (List.mem_cons_self a t)])]
    exact ih (fun c hc => h c (List.mem_cons_of_mem a hc))

/-- The optional scheme step of parse_uri always succeeds and its remainder
is drawn from the original input. -/
theorem step_scheme (i : List Char) :
    ∃ o r, popt (terminated (take_while1 isAlnumR) (tagP ("://".toList))) i = PRes.ok o r ∧
      ∀ c ∈ r, c ∈ i := by
  by_cases h1 : (i.takeWhile isAlnumR).isEmpty
  · refine ⟨none, i, ?_, fun c hc => hc⟩
    simp [popt, terminated, pbind, pmap, take_while1, h1]
  · by_cases h2 : [':', '/', '/'] <+: (i.dropWhile isAlnumR)
    · refine ⟨some (i.takeWhile isAlnumR), (i.dropWhile isAlnumR).drop (("://".toList).length), ?_, ?_⟩
      · simp [popt, terminated, pbind, pmap, take_while1, tagP, h1, h2]
      · intro c hc
        exact wp_mem_of_dropWhile (wp_mem_of_drop hc)
    · refine ⟨none, i, ?_, fun c hc => hc⟩
      simp [popt, terminated, pbind, pmap, take_while1, tagP, h1, h2]

/-- The optional host step of parse_uri always succeeds and its remainder
is drawn from the original input. -/
theorem step_host (f : Char → Bool) (i : List Char) :
    ∃ o r, popt (take_while1 f) i = PRes.ok o r ∧ ∀ c ∈ r, c ∈ i := by
  by_cases h1 : (i.takeWhile f).isEmpty
  · exact ⟨none, i, by simp [popt, take_while1, h1], fun c hc => hc⟩
  · exact ⟨some (i.takeWhile f), i.dropWhile f, by simp [popt, take_while1, h1],
      fun c hc => wp_mem_of_dropWhile hc⟩

/-- parse_uri never fails, and on a token free of white space it consumes
every character. -/
theorem parse_uri_consumes (i : List Char) (h : ∀ c ∈ i, isWhitespaceR c = false) :
    ∃ u, parse_uri i = PRes.ok u [] := by
  obtain ⟨o1, r1, e1, m1⟩ := step_scheme i
  obtain ⟨o2, r2, e2, m2⟩ := step_host (fun c => !(c == '/')) r1
  have hq : (r2.dropWhile (fun c => !(c == '?'))).dropWhile (fun c => !(isWhitespaceR c)) = [] := by
    apply wp_dropWhile_nil
    intro c hc
    have hcw : isWhitespaceR c = false := h c (m1 c (m2 c (wp_mem_of_dropWhile hc)))
    simp [hcw]
  refine ⟨⟨o1.getD [], o2.getD [], r2.takeWhile (fun c => !(c == '?')),
    (r2.dropWhile (fun c => !(c == '?'))).takeWhile (fun c => !(isWhitespaceR c))⟩, ?_⟩
  unfold parse_uri pbind
  rw [e1]
  dsimp only
  rw [e2]
  dsimp only
  simp [pmap, take_while, hq]

/-- Claim C9: on any token with no white-space characters (the empty token
included) parse_uri succeeds and consumes the token in full, so the
all_consuming wrapper that parse_proxy_rule applies to the source and
target tokens also succeeds and its malformed-URI error branch is
unreachable for white-space-delimited tokens. -/
theorem claim_C9_uri_total (i : List Char) (h : ∀ c ∈ i, isWhitespaceR c = false) :
    (parse_uri i).consumedAll = true ∧ (all_consuming parse_uri i).consumedAll = true := by
  obtain ⟨u, hu⟩ := parse_uri_consumes i h
  refine ⟨by rw [hu]; rfl, ?_⟩
  unfold all_consuming
  rw [hu]
  rfl

/-- Witness for claim C9 at a concrete token. -/
theorem claim_C9_witness :
    (parse_uri ("http://a.com".toList)).consumedAll = true ∧
    (all_consuming parse_uri ("http://a.com".toList)).consumedAll = true :=
  claim_C9_uri_total ("http://a.com".toList) (by decide)

/-- Inversion of the nom map combinator on a successful run. -/
theorem pmap_ok {p : Parser α} {f : α → β} {i : List Char} {y : β} {r : List Char}
    (h : pmap p f i = PRes.ok y r) : ∃ x, p i = PRes.ok x r ∧ y = f x := by
  unfold pmap at h
  split at h
  next x r' heq =>
    injection h with h1 h2
    subst h2
    exact ⟨x, heq, h1.symm⟩
  next => cases h
  next => cases h

/-- When the many0 loop stops with a success, the element parser fails
recoverably at the stop position. -/
theorem many0F_stop {p : Parser α} :
    ∀ {fuel : Nat} {i v r : _}, many0F p fuel i = PRes.ok v r → p r = PRes.err := by
  intro fuel
  induction fuel with
  | zero => intro i v r h; exact absurd h (by simp [many0F])
  | succ n ih =>
    intro i v r h
    unfold many0F at h
    split at h
    next hp =>
      injection h with h1 h2
      subst h2
      exact hp
    next => cases h
    next x i1 hp =>
      split at h
      · split at h
        next xs r' hm =>
          injection h with h1 h2
          subst h2
          exact ih hm
        next => cases h
        next => cases h
      · cases h

/-- When many1 succeeds, the element parser fails at the stop position. -/
theorem many1_stop {p : Parser α} {i v r : _} (h : many1 p i = PRes.ok v r) :
    p r = PRes.err := by
  unfold many1 at h
  split at h
  next => cases h
  next => cases h
  next x i1 hp =>
    split at h
    next xs r' hm =>
      injection h with h1 h2
      subst h2
      exact many0F_stop hm
    next => cases h
    next => cases h

/-- After a successful plain-text run, a second plain-text run at the
remaining input fails: the run already stopped at a fence, a newline or the
end of input. -/
theorem plaintext_next_err {i s r : _} (h : parse_plaintext i = PRes.ok s r) :
    parse_plaintext r = PRes.err := by
  unfold parse_plaintext at h
  obtain ⟨v, hv, _⟩ := pmap_ok h
  have hstop := many1_stop hv
  unfold parse_plaintext pmap many1
  rw [hstop]

/-- A successful inline parse yields a plain-text element and leaves an
input where the inline parser fails. -/
theorem inline_ok {i m i1 : _} (h : parse_markdown_inline i = PRes.ok m i1) :
    (∃ s, m = MarkdownInline.Plaintext s) ∧ parse_markdown_inline i1 = PRes.err := by
  unfold parse_markdown_inline at h
  obtain ⟨s, hs, hm⟩ := pmap_ok h
  refine ⟨⟨s, hm⟩, ?_⟩
  have hnext := plaintext_next_err hs
  unfold parse_markdown_inline pmap
  rw [hnext]

/-- The many0 loop over the inline parser can only produce zero or one
element, because the inline parser fails right after any success. -/
theorem many0F_inline_shape :
    ∀ {fuel : Nat} {i v r : _}, many0F parse_markdown_inline fuel i = PRes.ok v r →
      v = [] ∨ ∃ s, v = [MarkdownInline.Plaintext s] := by
  intro fuel i v r h
  cases fuel with
  | zero => exact absurd h (by simp [many0F])
  | succ n =>
    unfold many0F at h
    split at h
    next hp =>
      injection h with h1 _
      exact Or.inl h1.symm
    next => cases h
    next m i1 hp =>
      split at h
      · split at h
        next xs r' hm =>
          injection h with h1 h2
          obtain ⟨⟨s, hms⟩, hnext⟩ := inline_ok hp
          have hxs : xs = [] := by
            cases n with
            | zero => exact absurd hm (by simp [many0F])
            | succ k =>
              unfold many0F at hm
              rw [hnext] at hm
              dsimp only at hm
              injection hm with e1 e2
              exact e1.symm
          rw [← h1, hms, hxs]
          exact Or.inr ⟨s, rfl⟩
        next => cases h
        next => cases h
      · cases h

/-- A successful line parse carries zero inlines or exactly one plain-text
inline. -/
theorem text_shape {i v r : _} (h : parse_markdown_text i = PRes.ok v r) :
    v = [] ∨ ∃ s, v = [MarkdownInline.Plaintext s] := by
  unfold parse_markdown_text terminated pbind pmap many0 at h
  split at h
  next xs r1 hm =>
    dsimp only at h
    split at h
    next =>
      injection h with h1 _
      rw [← h1]
      exact many0F_inline_shape hm
    next => cases h
    next => cases h
  next => cases h
  next => cases h

/-- A Line element produced by the markdown element alternation comes from
a successful line parse, so it has the zero-or-one-inline shape. -/
theorem mdElem_line_shape {j r' : _} {v : List MarkdownInline}
    (h : mdElem j = PRes.ok (Markdown.Line v) r') :
    v = [] ∨ ∃ s, v = [MarkdownInline.Plaintext s] := by
  unfold mdElem alt2 at h
  split at h
  next hcb =>
    obtain ⟨x, hx, heq⟩ := pmap_ok h
    injection heq with hvx
    rw [hvx]
    exact text_shape hx
  next y rr hcb =>
    injection h with h1 _
    obtain ⟨x, hx2, hy⟩ := pmap_ok hcb
    rw [hy] at h1
    cases h1
  next => cases h

/-- Every element of a list produced by the many0 loop is a successful
output of the element parser at some input. -/
theorem many0F_mem {p : Parser α} :
    ∀ {fuel : Nat} {i l r : _}, many0F p fuel i = PRes.ok l r →
      ∀ x ∈ l, ∃ j r', p j = PRes.ok x r' := by
  intro fuel
  induction fuel with
  | zero => intro i l r h; exact absurd h (by simp [many0F])
  | succ n ih =>
    intro i l r h
    unfold many0F at h
    split at h
    next hp =>
      injection h with h1 _
      intro x hx
      rw [← h1] at hx
      exact absurd hx (List.not_mem_nil x)
    next => cases h
    next a i1 hp =>
      split at h
      · split at h
        next xs r' hm =>
          injection h with h1 _
          intro x hx
          rw [← h1] at hx
          rcases List.mem_cons.mp hx with rfl | hx2
          · exact ⟨i, i1, hp⟩
          · exact ih hm x hx2
        next => cases h
        next => cases h
      · cases h

/-- Claim C10: every Line element in a successful parse_markdown result
holds at most one inline element, zero exactly for an empty line and one
plain-text inline otherwise, so into_parts, which reads only the first
inline of a non-empty line, drops no line content on parse_markdown
output. -/
theorem claim_C10_line_shape (i : List Char) (l : List Markdown) (r : List Char)
    (h : parse_markdown i = PRes.ok l r) (v : List MarkdownInline)
    (hv : Markdown.Line v ∈ l) :
    v = [] ∨ ∃ s, v = [MarkdownInline.Plaintext s] := by
  unfold parse_markdown many1 at h
  split at h
  next => cases h
  next => cases h
  next x i1 hp =>
    split at h
    next xs r' hm =>
      injection h with h1 _
      rw [← h1] at hv
      rcases List.mem_cons.mp hv with hx | hxs
      · rw [← hx] at hp
        exact mdElem_line_shape hp
      · obtain ⟨j, r'', hj⟩ := many0F_mem hm _ hxs
        exact mdElem_line_shape hj
    next => cases h
    next => cases h

/-- Witness for claim C10 at a concrete one-line document. -/
theorem claim_C10_witness :
    [MarkdownInline.Plaintext ("a".toList)] = [] ∨
    ∃ s, [MarkdownInline.Plaintext ("a".toList)] = [MarkdownInline.Plaintext s] :=
  claim_C10_line_shape ("a\n".toList) [Markdown.Line [MarkdownInline.Plaintext ("a".toList)]] []
    (by decide) [MarkdownInline.Plaintext ("a".toList)] (by decide)

/-- Claim C1. The claim states that a value token opening with a brace but
lacking the matching close makes parse_rule_value (and parse_rule) fail
with a malformed-value error and never yields the Raw variant. The code
does the opposite: the brace branch of the alternation fails recoverably
and the bare-token fallback consumes the whole token, so the rule parse
succeeds with the Raw variant. This theorem evaluates the code at the
failing input of the claim. -/
theorem claim_C1_raw_fallback :
    parse_rule ("header://\x7bX-Foo".toList) =
      PRes.ok ⟨"header".toList, OpValue.Raw ("\x7bX-Foo".toList)⟩ [] ∧
    parse_rule_value ("\x7bX-Foo".toList) =
      PRes.ok (OpValue.Raw ("\x7bX-Foo".toList)) [] := by decide

/-- Claim C2. The claim states the round-trip property: an interpolation-free
template parse keeps every literal character of the backtick interior in its
raw parts. The code drops literal text that is not followed by an
interpolation opener, because its literal-run branch fails when no opener
occurs in the rest of the input: the interior abc parses to a template with
no parts at all, its unconsumed remainder being discarded by the unwrap in
parse_rule_value. This theorem evaluates the code at that failing input. -/
theorem claim_C2_roundtrip_drop :
    parse_template_string ("abc".toList) = PRes.ok ⟨[]⟩ ("abc".toList) ∧
    parse_rule_value ("`abc`".toList) = PRes.ok (OpValue.TemplateString ⟨[]⟩) [] ∧
    rawConcat [] ≠ "abc".toList := by decide

/-- Claim C3. The claim states that a tail token that is not a rule makes
parse_proxy_rule return an error value with no partial result and no
process abort. The code instead unwraps the rule parse inside get_rules, so
the failing token nonsense (it has no name separator) aborts the process;
the model evaluates to the abort outcome rather than an error value. -/
theorem claim_C3_tail_abort :
    parse_proxy_rule ("http://a.com http://b.com nonsense".toList) = PRes.panic := by decide

/-- Claim C4. The claim states that a trailing backslash or an unterminated
interpolation yields a dedicated unterminated error value, with no abort
and no silently unconsumed suffix. In the code an unterminated
interpolation makes the template parse fail with a generic repetition
error, which the unwrap in parse_rule_value turns into a process abort;
and a trailing backslash is silently left unconsumed in a successful empty
template. This theorem evaluates both failing inputs. -/
theorem claim_C4_lexer_abort :
    parse_rule_value ("`$\x7bx`".toList) = PRes.panic ∧
    parse_template_string ("ab\\".toList) = PRes.ok ⟨[]⟩ ("ab\\".toList) := by decide

/-- Claim C5. The claim states that parse_rule on the auth token with a
backtick template containing a space yields a template string value that
keeps the space. In the code the value token is cut at white space before
parse_rule_value runs, and the backtick branch forbids spaces in the
interior, so the parse succeeds with a Raw value holding only the text up
to the space, the rest left unconsumed. This theorem evaluates the code at
the claimed input. -/
theorem claim_C5_backtick_space :
    parse_rule ("auth://`Bearer $\x7btoken\x7d`".toList) =
      PRes.ok ⟨"auth".toList, OpValue.Raw ("`Bearer".toList)⟩ (" $\x7btoken\x7d`".toList) := by decide

/-- Claim C6: parse_proxy_rule on the documented four-token line succeeds
with the two URIs and the two rules in input order, the brace token giving
a Value rule and the parenthesis token an Inline rule. -/
theorem claim_C6_proxy_rule_example :
    parse_proxy_rule ("http://a.com http://b.com header://\x7bX-Foo\x7d timeout://(30)".toList) =
      PRes.ok ⟨⟨"http".toList, "a.com".toList, [], []⟩,
        ⟨"http".toList, "b.com".toList, [], []⟩,
        [⟨"header".toList, OpValue.Value ("X-Foo".toList)⟩,
         ⟨"timeout".toList, OpValue.Inline ("30".toList)⟩]⟩ [] := by decide

/-- Claim C7: parse_uri decomposes the documented absolute URI into scheme,
host, path and query, and a bare path token into an all-empty URI except
for the path. -/
theorem claim_C7_uri_examples :
    parse_uri ("http://example.com/path?q=1".toList) =
      PRes.ok ⟨"http".toList, "example.com".toList, "/path".toList, "?q=1".toList⟩ [] ∧
    parse_uri ("/just/a/path".toList) =
      PRes.ok ⟨[], [], "/just/a/path".toList, []⟩ [] := by decide

/-- The code-pair component of into_parts is exactly the sequence of
code-block pairs of the element list, in encountered order. -/
theorem into_parts_codes : ∀ (md : List Markdown), (into_parts md).2 = md.filterMap mdCodePair := by
  intro md
  induction md with
  | nil => rfl
  | cons m rest ih =>
    cases m with
    | Line v =>
      cases v with
      | nil => simp [into_parts, mdCodePair, List.filterMap_cons, ih]
      | cons a t =>
        cases a with
        | Plaintext s => simp [into_parts, mdCodePair, List.filterMap_cons, ih]
    | Codeblock n v => simp [into_parts, mdCodePair, List.filterMap_cons, ih]

/-- The joined-text component of into_parts is built from the Line elements
alone: removing every code-block element leaves it unchanged, so a block
body contributes nothing to the joined text. -/
theorem into_parts_text :
    ∀ (md : List Markdown),
      (into_parts md).1 = (into_parts (md.filter (fun m => !(isCodeblock m)))).1 := by
  intro md
  induction md with
  | nil => rfl
  | cons m rest ih =>
    cases m with
    | Line v =>
      cases v with
      | nil => simp [into_parts, isCodeblock, List.filter_cons, ih]
      | cons a t =>
        cases a with
        | Plaintext s => simp [into_parts, isCodeblock, List.filter_cons, ih]
    | Codeblock n v => simp [into_parts, isCodeblock, List.filter_cons, ih]

/-- Counterexample to claim C8 as stated: this document contains one fenced
go block with the documented body, parse_markdown succeeds and into_parts
places the pair in the code pairs, yet the block's content does occur in
the joined line text, because the same text also occurs as a plain line. -/
theorem claim_C8_counterexample :
    parse_markdown ("fmt.Println(1)\n```go\nfmt.Println(1)\n```\n".toList) =
      PRes.ok [Markdown.Line [MarkdownInline.Plaintext ("fmt.Println(1)".toList)],
        Markdown.Codeblock ("go".toList) ("fmt.Println(1)\n".toList),
        Markdown.Line []] [] ∧
    into_parts [Markdown.Line [MarkdownInline.Plaintext ("fmt.Println(1)".toList)],
        Markdown.Codeblock ("go".toList) ("fmt.Println(1)\n".toList),
        Markdown.Line []] =
      ("fmt.Println(1)\n\n".toList, [("go".toList, "fmt.Println(1)\n".toList)]) ∧
    listContains ("fmt.Println(1)\n\n".toList) ("fmt.Println(1)\n".toList) = true := by decide

/-- Claim C8, amended: for every document whose successful parse_markdown
result contains the go code-block element with the documented body,
into_parts places the language and body pair in the code pairs, the code
pairs being exactly the code-block pairs of the result in encountered
order; and the block contributes nothing to the joined text, which is built
from the Line elements alone (the body may still occur in the joined text
when the same characters also occur as a plain line, which is what refutes
the original non-occurrence claim). -/
theorem claim_C8_code_pairs (i : List Char) (l : List Markdown) (r : List Char)
    (_h : parse_markdown i = PRes.ok l r)
    (hmem : Markdown.Codeblock ("go".toList) ("fmt.Println(1)\n".toList) ∈ l) :
    (into_parts l).2 = l.filterMap mdCodePair ∧
    ("go".toList, "fmt.Println(1)\n".toList) ∈ (into_parts l).2 ∧
    (into_parts l).1 = (into_parts (l.filter (fun m => !(isCodeblock m)))).1 := by
  refine ⟨into_parts_codes l, ?_, into_parts_text l⟩
  rw [into_parts_codes l]
  exact List.mem_filterMap.mpr ⟨_, hmem, rfl⟩

/-- Witness for the amended claim C8 at the representative document of the
specification. -/
theorem claim_C8_witness :
    (into_parts [Markdown.Line [MarkdownInline.Plaintext ("hello".toList)],
        Markdown.Codeblock ("go".toList) ("fmt.Println(1)\n".toList),
        Markdown.Line []]).2 =
      [Markdown.Line [MarkdownInline.Plaintext ("hello".toList)],
        Markdown.Codeblock ("go".toList) ("fmt.Println(1)\n".toList),
        Markdown.Line []].filterMap mdCodePair ∧
    ("go".toList, "fmt.Println(1)\n".toList) ∈
      (into_parts [Markdown.Line [MarkdownInline.Plaintext ("hello".toList)],
        Markdown.Codeblock ("go".toList) ("fmt.Println(1)\n".toList),
        Markdown.Line []]).2 ∧
    (into_parts [Markdown.Line [MarkdownInline.Plaintext ("hello".toList)],
        Markdown.Codeblock ("go".toList) ("fmt.Println(1)\n".toList),
        Markdown.Line []]).1 =
      (into_parts ([Markdown.Line [MarkdownInline.Plaintext ("hello".toList)],
        Markdown.Codeblock ("go".toList) ("fmt.Println(1)\n".toList),
        Markdown.Line []].filter (fun m => !(isCodeblock m)))).1 :=
  claim_C8_code_pairs ("hello\n```go\nfmt.Println(1)\n```\n".toList)
    [Markdown.Line [MarkdownInline.Plaintext ("hello".toList)],
      Markdown.Codeblock ("go".toList) ("fmt.Println(1)\n".toList),
      Markdown.Line []] [] (by decide) (by decide)

end WP
